import Mathlib

/-!
Verification of the veloren network wire-protocol types
(`network/src/types.rs`): identifier types, the promise bitfield, and the
frame codec's decode functions, embedded shallowly over `Nat` bytes.
-/

namespace Veloren

/-- A byte is a `Nat`; the u8 range `< 256` is carried as a hypothesis
where it matters. `fromLeBytes` interprets a byte list little-endian,
as `u64::from_le_bytes` / `u128::from_le_bytes` do. -/
def fromLeBytes : List Nat → Nat
  | [] => 0
  | b :: rest => b + 256 * fromLeBytes rest

/-- `toLeBytes w v` is the `w`-byte little-endian encoding of `v`,
as `uN::to_le_bytes`. -/
def toLeBytes : Nat → Nat → List Nat
  | 0, _ => []
  | w + 1, v => v % 256 :: toLeBytes w (v / 256)

/-- `Promises` bitflags over a u8 (`bitflags!` in the source); `bits` is
the raw byte value. -/
structure Promises where
  bits : Nat
  deriving DecidableEq, Repr

def Promises.ORDERED : Promises := ⟨0b00000001⟩

def Promises.CONSISTENCY : Promises := ⟨0b00000010⟩

def Promises.GUARANTEED_DELIVERY : Promises := ⟨0b00000100⟩

/-- `COMPRESSED` is only compiled in when the `compression` feature is
enabled; the feature is modelled as a `Bool` parameter below. -/
def Promises.COMPRESSED : Promises := ⟨0b00001000⟩

def Promises.ENCRYPTED : Promises := ⟨0b00010000⟩

/-- The flags defined by the `bitflags!` block, depending on whether the
`compression` feature is compiled in. -/
def Promises.definedFlags (compression : Bool) : List Promises :=
  if compression then
    [Promises.ORDERED, Promises.CONSISTENCY, Promises.GUARANTEED_DELIVERY,
     Promises.COMPRESSED, Promises.ENCRYPTED]
  else
    [Promises.ORDERED, Promises.CONSISTENCY, Promises.GUARANTEED_DELIVERY,
     Promises.ENCRYPTED]

/-- `bitflags` union (the `|` operator on `Promises`). -/
def Promises.union (p q : Promises) : Promises := ⟨p.bits ||| q.bits⟩

/-- `bitflags::empty()`. -/
def Promises.empty : Promises := ⟨0⟩

/-- Union of a list of flags, to talk about an arbitrary "set of promise
flags". -/
def Promises.ofList (l : List Promises) : Promises :=
  l.foldr Promises.union Promises.empty

/-- The mask of all defined bits (`bitflags::all().bits`). -/
def Promises.allBits (compression : Bool) : Nat :=
  ((Promises.definedFlags compression).map Promises.bits).foldr (· ||| ·) 0

/-- `Promises::from_bits_truncate`: keep only defined bits, never fails. -/
def Promises.from_bits_truncate (compression : Bool) (b : Nat) : Promises :=
  ⟨b &&& Promises.allBits compression⟩

/-- `Promises::to_le_bytes`, a single byte. -/
def Promises.to_le_bytes (p : Promises) : List Nat := [p.bits]

/-- `VELOREN_MAGIC_NUMBER`: the 7 bytes of ASCII "VELOREN". -/
def VELOREN_MAGIC_NUMBER : List Nat := [86, 69, 76, 79, 82, 69, 78]

/-- `VELOREN_NETWORK_VERSION`. -/
def VELOREN_NETWORK_VERSION : List Nat := [0, 5, 0]

/-- `Pid`: 128-bit participant id (`internal: u128`). -/
structure Pid where
  internal : Nat
  deriving DecidableEq, Repr

/-- `Sid`: 64-bit stream id (`internal: u64`). -/
structure Sid where
  internal : Nat
  deriving DecidableEq, Repr

def Sid.new (internal : Nat) : Sid := ⟨internal⟩

/-- `STREAM_ID_OFFSET1 = Sid::new(0)`. -/
def STREAM_ID_OFFSET1 : Sid := Sid.new 0

/-- `STREAM_ID_OFFSET2 = Sid::new(u64::MAX / 2)`. -/
def STREAM_ID_OFFSET2 : Sid := Sid.new ((2 ^ 64 - 1) / 2)

def Pid.to_le_bytes (p : Pid) : List Nat := toLeBytes 16 p.internal

def Pid.from_le_bytes (bytes : List Nat) : Pid := ⟨fromLeBytes bytes⟩

def Sid.to_le_bytes (s : Sid) : List Nat := toLeBytes 8 s.internal

def Sid.from_le_bytes (bytes : List Nat) : Sid := ⟨fromLeBytes bytes⟩

/-- The `Frame` enum. `Data`'s payload and `Raw` are carried separately by
the callers of `gen_data` / `gen_raw`, which only decode the headers. -/
inductive Frame where
  | Handshake (magic_number : List Nat) (version : List Nat)
  | Init (pid : Pid) (secret : Nat)
  | Shutdown
  | OpenStream (sid : Sid) (prio : Nat) (promises : Promises)
  | CloseStream (sid : Sid)
  | DataHeader (mid : Nat) (sid : Sid) (length : Nat)
  deriving DecidableEq, Repr

/-- `Frame::gen_handshake(buf: [u8; 19])`; the fixed-size array argument
becomes an exact length requirement on the byte list. -/
def gen_handshake (buf : List Nat) : Option Frame :=
  if buf.length = 19 then
    some (Frame.Handshake (buf.take 7)
      [fromLeBytes ((buf.drop 7).take 4),
       fromLeBytes ((buf.drop 11).take 4),
       fromLeBytes ((buf.drop 15).take 4)])
  else none

/-- `Frame::gen_init(buf: [u8; 32])`. -/
def gen_init (buf : List Nat) : Option Frame :=
  if buf.length = 32 then
    some (Frame.Init (Pid.from_le_bytes (buf.take 16))
      (fromLeBytes ((buf.drop 16).take 16)))
  else none

/-- `Frame::gen_open_stream(buf: [u8; 10])`; `compression` is the
feature flag governing which promise bits are defined. -/
def gen_open_stream (compression : Bool) (buf : List Nat) : Option Frame :=
  if buf.length = 10 then
    some (Frame.OpenStream (Sid.from_le_bytes (buf.take 8)) (buf.getD 8 0)
      (Promises.from_bits_truncate compression (buf.getD 9 0)))
  else none

/-- `Frame::gen_close_stream(buf: [u8; 8])`. -/
def gen_close_stream (buf : List Nat) : Option Frame :=
  if buf.length = 8 then
    some (Frame.CloseStream (Sid.from_le_bytes (buf.take 8)))
  else none

/-- `Frame::gen_data_header(buf: [u8; 24])`. -/
def gen_data_header (buf : List Nat) : Option Frame :=
  if buf.length = 24 then
    some (Frame.DataHeader (fromLeBytes (buf.take 8))
      (Sid.from_le_bytes ((buf.drop 8).take 8))
      (fromLeBytes ((buf.drop 16).take 8)))
  else none

/-- `Frame::gen_data(buf: [u8; 18]) -> (Mid, u64, u16)`: decodes the Data
frame header, yielding message id, start offset and fragment length. -/
def gen_data (buf : List Nat) : Option (Nat × Nat × Nat) :=
  if buf.length = 18 then
    some (fromLeBytes (buf.take 8),
      fromLeBytes ((buf.drop 8).take 8),
      fromLeBytes ((buf.drop 16).take 2))
  else none

/-- `Frame::gen_raw(buf: [u8; 2]) -> u16`. -/
def gen_raw (buf : List Nat) : Option Nat :=
  if buf.length = 2 then some (fromLeBytes (buf.take 2)) else none

/-- `Pid::fake(pid_offset: u8)`: asserts `pid_offset < 8` (a panic is
`none`), else builds the repeating-sixlet internal value from the `OFF`
table. -/
def Pid.fake (pid_offset : Nat) : Option Pid :=
  if pid_offset < 8 then
    let o := pid_offset
    some ⟨o + o * 0x40 + o * (0x40 * 0x40) + o * (0x40 * 0x40 * 0x40) +
      o * (0x40 * 0x40 * 0x40 * 0x40) +
      o * (0x40 * 0x40 * 0x40 * 0x40 * 0x40)⟩
  else none

/-- The 64-character alphabet indexed by `sixlet_to_str`. -/
def PID_ALPHABET : List Char :=
  "ABCDEFGHIJKLMNOPQRSTUVWXYZabcdefghijklmnopqrstuvwxyz0123456789+/".toList

/-- `sixlet_to_str`: indexes the 64-byte alphabet; an out-of-bounds index
(a panic in the source) is `none`. -/
def sixlet_to_str (sixlet : Nat) : Option Char := PID_ALPHABET.get? sixlet

/-- Collect a list of optional characters, failing if any write failed. -/
def seqOpt {α : Type} : List (Option α) → Option (List α)
  | [] => some []
  | o :: rest => o.bind fun a => (seqOpt rest).map fun as => a :: as

/-- The `Debug` rendering of a `Pid`: the loop
`for i in 0..6 { sixlet_to_str((internal >> (i*6)) & 0x3F) }`. -/
def pidDebug (p : Pid) : Option (List Char) :=
  seqOpt ((List.range 6).map fun i =>
    sixlet_to_str ((p.internal >>> (i * 6)) &&& 0x3F))

/-- The characters the `Debug` rendering selects, position by position. -/
def pidDebugChars (p : Pid) : List Char :=
  (List.range 6).map fun i =>
    PID_ALPHABET.getD ((p.internal >>> (i * 6)) &&& 0x3F) 'A'

/-! ### Generic little-endian encoding lemmas -/

theorem toLeBytes_length (w : Nat) : ∀ v, (toLeBytes w v).length = w := by
  induction w with
  | zero => intro v; rfl
  | succ w ih => intro v; simp [toLeBytes, ih]

theorem toLeBytes_lt (w : Nat) :
    ∀ v, ∀ b ∈ toLeBytes w v, b < 256 := by
  induction w with
  | zero => intro v b hb; simp [toLeBytes] at hb
  | succ w ih =>
    intro v b hb
    simp only [toLeBytes, List.mem_cons] at hb
    rcases hb with h | h
    · exact h ▸ Nat.mod_lt _ (by norm_num)
    · exact ih _ b h

theorem fromLeBytes_toLeBytes (w : Nat) :
    ∀ v, v < 256 ^ w → fromLeBytes (toLeBytes w v) = v := by
  induction w with
  | zero => intro v hv; interval_cases v; rfl
  | succ w ih =>
    intro v hv
    have hdiv : v / 256 < 256 ^ w := by
      rw [Nat.div_lt_iff_lt_mul (by norm_num)]
      calc v < 256 ^ (w + 1) := hv
        _ = 256 ^ w * 256 := by ring
    simp only [toLeBytes, fromLeBytes, ih _ hdiv]
    exact Nat.mod_add_div v 256

theorem toLeBytes_fromLeBytes :
    ∀ bs : List Nat, (∀ b ∈ bs, b < 256) →
      toLeBytes bs.length (fromLeBytes bs) = bs := by
  intro bs
  induction bs with
  | nil => intro _; rfl
  | cons b rest ih =>
    intro h
    have hb : b < 256 := h b (List.mem_cons_self b rest)
    have hrest : ∀ x ∈ rest, x < 256 := fun x hx => h x (List.mem_cons_of_mem b hx)
    simp only [List.length_cons, toLeBytes, fromLeBytes]
    rw [Nat.add_mul_mod_self_left b 256 (fromLeBytes rest), Nat.mod_eq_of_lt hb,
      Nat.add_mul_div_left b (fromLeBytes rest) (by norm_num),
      Nat.div_eq_of_lt hb, Nat.zero_add, ih hrest]

theorem fromLeBytes_lt :
    ∀ bs : List Nat, (∀ b ∈ bs, b < 256) → fromLeBytes bs < 256 ^ bs.length := by
  intro bs
  induction bs with
  | nil => intro _; simp [fromLeBytes]
  | cons b rest ih =>
    intro h
    have hb : b < 256 := h b (List.mem_cons_self b rest)
    have hrest := ih fun x hx => h x (List.mem_cons_of_mem b hx)
    simp only [fromLeBytes, List.length_cons, pow_succ]
    calc b + 256 * fromLeBytes rest
        ≤ 255 + 256 * fromLeBytes rest := by omega
      _ < 256 * (fromLeBytes rest + 1) := by omega
      _ ≤ 256 * 256 ^ rest.length := by
          have : fromLeBytes rest + 1 ≤ 256 ^ rest.length := hrest
          exact Nat.mul_le_mul_left 256 this
      _ = 256 ^ rest.length * 256 := Nat.mul_comm _ _

/-! ### Helper lemmas -/

theorem get?_eq_getD {α : Type} (l : List α) (n : Nat) (d : α)
    (h : n < l.length) : l.get? n = some (l.getD n d) := by
  rw [List.get?_eq_getElem?, List.getElem?_eq_getElem h, List.getD_eq_getElem l d h]

theorem seqOpt_map_some {α β : Type} (f : β → Option α) (g : β → α)
    (l : List β) (h : ∀ x ∈ l, f x = some (g x)) :
    seqOpt (l.map f) = some (l.map g) := by
  induction l with
  | nil => rfl
  | cons x rest ih =>
    have hx := h x (List.mem_cons_self x rest)
    have hrest := ih fun y hy => h y (List.mem_cons_of_mem x hy)
    simp [List.map, seqOpt, hx, hrest]

theorem land_comm_zero (x y : Nat) (h : x &&& y = 0) : y &&& x = 0 := by
  rw [Nat.land_comm]; exact h

/-! ### Claims -/

/-- C1 (counterexample): decoding the Data frame header does not consume
16 bytes — a 16-byte buffer is rejected, while 18 bytes decode to a
(message id, start offset, length) triple. -/
theorem c1_data_header_not_16 :
    gen_data (List.replicate 16 0) = none ∧
    gen_data (List.replicate 18 0) = some (0, 0, 0) := by decide

/-- C1 (amended): the Data frame header is 18 bytes — 8-byte message id,
8-byte start offset, 2-byte fragment length, all little-endian — and
decoding requires exactly 18 bytes, yielding (mid, start, length). -/
theorem c1_data_header_layout (mid start len : Nat)
    (hm : mid < 2 ^ 64) (hs : start < 2 ^ 64) (hl : len < 2 ^ 16) :
    gen_data (toLeBytes 8 mid ++ (toLeBytes 8 start ++ toLeBytes 2 len)) =
      some (mid, start, len) ∧
    (toLeBytes 8 mid ++ (toLeBytes 8 start ++ toLeBytes 2 len)).length = 18 ∧
    (∀ buf : List Nat, buf.length ≠ 18 → gen_data buf = none) := by
  have hm8 : (toLeBytes 8 mid).length = 8 := toLeBytes_length 8 mid
  have hs8 : (toLeBytes 8 start).length = 8 := toLeBytes_length 8 start
  have hl2 : (toLeBytes 2 len).length = 2 := toLeBytes_length 2 len
  have hlen : (toLeBytes 8 mid ++ (toLeBytes 8 start ++ toLeBytes 2 len)).length
      = 18 := by simp [hm8, hs8, hl2]
  refine ⟨?_, hlen, fun buf hb => by simp [gen_data, hb]⟩
  have hm' : mid < 256 ^ 8 := by
    have h : (256 : Nat) ^ 8 = 2 ^ 64 := by norm_num
    rw [h]; exact hm
  have hs' : start < 256 ^ 8 := by
    have h : (256 : Nat) ^ 8 = 2 ^ 64 := by norm_num
    rw [h]; exact hs
  have hl' : len < 256 ^ 2 := by
    have h : (256 : Nat) ^ 2 = 2 ^ 16 := by norm_num
    rw [h]; exact hl
  have htake8 : (toLeBytes 8 mid ++ (toLeBytes 8 start ++ toLeBytes 2 len)).take 8
      = toLeBytes 8 mid := List.take_left' hm8
  have hdrop8 : (toLeBytes 8 mid ++ (toLeBytes 8 start ++ toLeBytes 2 len)).drop 8
      = toLeBytes 8 start ++ toLeBytes 2 len := List.drop_left' hm8
  have hdrop16 : (toLeBytes 8 mid ++ (toLeBytes 8 start ++ toLeBytes 2 len)).drop 16
      = toLeBytes 2 len := by
    rw [← List.append_assoc]
    exact List.drop_left' (by simp [hm8, hs8])
  rw [gen_data, if_pos hlen, htake8, hdrop8, hdrop16,
    List.take_left' hs8, List.take_of_length_le (le_of_eq hl2),
    fromLeBytes_toLeBytes 8 mid hm', fromLeBytes_toLeBytes 8 start hs',
    fromLeBytes_toLeBytes 2 len hl']

/-- C1 (witness). -/
theorem c1_data_header_layout_witness :
    gen_data (toLeBytes 8 1 ++ (toLeBytes 8 2 ++ toLeBytes 2 3)) =
      some (1, 2, 3) :=
  (c1_data_header_layout 1 2 3 (by norm_num) (by norm_num) (by norm_num)).1

/-- C2 (counterexample): the responder's stream-id offset is
`u64::MAX / 2 = 2^63 - 1`, not the midpoint `2^63`; and the initiator's
2^63-th locally generated id already collides with the responder's first. -/
theorem c2_offsets_not_midpoint :
    STREAM_ID_OFFSET2.internal ≠ 2 ^ 63 ∧
    STREAM_ID_OFFSET1.internal + (2 ^ 63 - 1) = STREAM_ID_OFFSET2.internal + 0 := by
  constructor
  · intro h
    have : ((2 : Nat) ^ 64 - 1) / 2 = 2 ^ 63 := h
    norm_num at this
  · norm_num [STREAM_ID_OFFSET1, STREAM_ID_OFFSET2, Sid.new]

/-- C2 (amended): the two stream-id offsets are 0 and
`u64::MAX / 2 = 2^63 - 1`; peers generating monotonically increasing ids
from their own offset produce no colliding id for at least 2^63 - 1
streams per half. -/
theorem c2_stream_id_halves (i j : Nat)
    (hi : i < 2 ^ 63 - 1) (hj : j < 2 ^ 63 - 1) :
    STREAM_ID_OFFSET1 = Sid.new 0 ∧
    STREAM_ID_OFFSET2 = Sid.new (2 ^ 63 - 1) ∧
    STREAM_ID_OFFSET1.internal + i ≠ STREAM_ID_OFFSET2.internal + j := by
  have h2 : STREAM_ID_OFFSET2.internal = 2 ^ 63 - 1 := by
    show ((2 : Nat) ^ 64 - 1) / 2 = 2 ^ 63 - 1
    norm_num
  refine ⟨rfl, ?_, ?_⟩
  · show Sid.new ((2 ^ 64 - 1) / 2) = Sid.new (2 ^ 63 - 1)
    exact congrArg Sid.new (by norm_num)
  · have h1 : STREAM_ID_OFFSET1.internal = 0 := rfl
    rw [h1, h2]
    omega

/-- C2 (witness). -/
theorem c2_stream_id_halves_witness :
    STREAM_ID_OFFSET1.internal + 0 ≠ STREAM_ID_OFFSET2.internal + 0 :=
  (c2_stream_id_halves 0 0 (by norm_num) (by norm_num)).2.2

/-- C5: the promise flags occupy bit positions 0..4 of the promise byte,
low to high: ORDERED=bit 0, CONSISTENCY=bit 1, GUARANTEED_DELIVERY=bit 2,
COMPRESSED=bit 3 (defined only when the compression feature is compiled
in), ENCRYPTED=bit 4. -/
theorem c5_promise_bit_positions :
    Promises.ORDERED.bits = 2 ^ 0 ∧
    Promises.CONSISTENCY.bits = 2 ^ 1 ∧
    Promises.GUARANTEED_DELIVERY.bits = 2 ^ 2 ∧
    Promises.COMPRESSED.bits = 2 ^ 3 ∧
    Promises.ENCRYPTED.bits = 2 ^ 4 ∧
    (∀ c : Bool, Promises.COMPRESSED ∈ Promises.definedFlags c ↔ c = true) := by
  decide

/-- C9: `Pid::fake` is deterministic and bounded: every offset below 8
yields a Pid, every offset 8 or above trips the assertion and yields
none. -/
theorem c9_pid_fake_bounded (o : Nat) :
    (o < 8 → ∃ p, Pid.fake o = some p) ∧
    (8 ≤ o → Pid.fake o = none) ∧
    (∀ p₁ p₂, Pid.fake o = some p₁ → Pid.fake o = some p₂ → p₁ = p₂) := by
  refine ⟨fun h => ?_, fun h => ?_, fun p₁ p₂ h₁ h₂ => ?_⟩
  · simp only [Pid.fake, if_pos h]
    exact ⟨_, rfl⟩
  · simp [Pid.fake, Nat.not_lt.mpr h]
  · rw [h₁] at h₂
    exact Option.some_inj.mp h₂

/-- C9 (witness). -/
theorem c9_pid_fake_bounded_witness :
    (∃ p, Pid.fake 3 = some p) ∧ Pid.fake 9 = none :=
  ⟨(c9_pid_fake_bounded 3).1 (by norm_num), (c9_pid_fake_bounded 9).2.1 (by norm_num)⟩

/-- C3: each fixed-size frame kind decodes from exactly its expected byte
count — Handshake 19, Init 32, OpenStream 10, CloseStream 8,
DataHeader 24 — and a shorter buffer fails to decode. -/
theorem c3_fixed_size_decode (c : Bool) (buf : List Nat) :
    (buf.length = 19 → (gen_handshake buf).isSome = true) ∧
    (buf.length < 19 → gen_handshake buf = none) ∧
    (buf.length = 32 → (gen_init buf).isSome = true) ∧
    (buf.length < 32 → gen_init buf = none) ∧
    (buf.length = 10 → (gen_open_stream c buf).isSome = true) ∧
    (buf.length < 10 → gen_open_stream c buf = none) ∧
    (buf.length = 8 → (gen_close_stream buf).isSome = true) ∧
    (buf.length < 8 → gen_close_stream buf = none) ∧
    (buf.length = 24 → (gen_data_header buf).isSome = true) ∧
    (buf.length < 24 → gen_data_header buf = none) := by
  refine ⟨fun h => ?_, fun h => ?_, fun h => ?_, fun h => ?_, fun h => ?_,
    fun h => ?_, fun h => ?_, fun h => ?_, fun h => ?_, fun h => ?_⟩
  · simp [gen_handshake, h]
  · simp [gen_handshake, Nat.ne_of_lt h]
  · simp [gen_init, h]
  · simp [gen_init, Nat.ne_of_lt h]
  · simp [gen_open_stream, h]
  · simp [gen_open_stream, Nat.ne_of_lt h]
  · simp [gen_close_stream, h]
  · simp [gen_close_stream, Nat.ne_of_lt h]
  · simp [gen_data_header, h]
  · simp [gen_data_header, Nat.ne_of_lt h]

/-- C3 (witness). -/
theorem c3_fixed_size_decode_witness :
    (gen_handshake (List.replicate 19 0)).isSome = true ∧
    gen_handshake (List.replicate 18 0) = none ∧
    (gen_init (List.replicate 32 0)).isSome = true ∧
    gen_init (List.replicate 31 0) = none ∧
    (gen_open_stream true (List.replicate 10 0)).isSome = true ∧
    gen_open_stream true (List.replicate 9 0) = none ∧
    (gen_close_stream (List.replicate 8 0)).isSome = true ∧
    gen_close_stream (List.replicate 7 0) = none ∧
    (gen_data_header (List.replicate 24 0)).isSome = true ∧
    gen_data_header (List.replicate 23 0) = none :=
  ⟨(c3_fixed_size_decode true (List.replicate 19 0)).1 (by decide),
   (c3_fixed_size_decode true (List.replicate 18 0)).2.1 (by decide),
   (c3_fixed_size_decode true (List.replicate 32 0)).2.2.1 (by decide),
   (c3_fixed_size_decode true (List.replicate 31 0)).2.2.2.1 (by decide),
   (c3_fixed_size_decode true (List.replicate 10 0)).2.2.2.2.1 (by decide),
   (c3_fixed_size_decode true (List.replicate 9 0)).2.2.2.2.2.1 (by decide),
   (c3_fixed_size_decode true (List.replicate 8 0)).2.2.2.2.2.2.1 (by decide),
   (c3_fixed_size_decode true (List.replicate 7 0)).2.2.2.2.2.2.2.1 (by decide),
   (c3_fixed_size_decode true (List.replicate 24 0)).2.2.2.2.2.2.2.2.1 (by decide),
   (c3_fixed_size_decode true (List.replicate 23 0)).2.2.2.2.2.2.2.2.2 (by decide)⟩

/-- C4: a 19-byte Handshake buffer decodes to magic = bytes 0..7 and the
three little-endian 4-byte version parts at bytes 7..11, 11..15, 15..19;
and the local magic token is a fixed 7-byte ASCII sequence. -/
theorem c4_handshake_layout (magic : List Nat) (hm : magic.length = 7)
    (a b c : Nat) (ha : a < 2 ^ 32) (hb : b < 2 ^ 32) (hc : c < 2 ^ 32) :
    gen_handshake (magic ++ (toLeBytes 4 a ++ (toLeBytes 4 b ++ toLeBytes 4 c))) =
      some (Frame.Handshake magic [a, b, c]) ∧
    VELOREN_MAGIC_NUMBER.length = 7 ∧
    (∀ x ∈ VELOREN_MAGIC_NUMBER, x < 128) := by
  have ha4 : (toLeBytes 4 a).length = 4 := toLeBytes_length 4 a
  have hb4 : (toLeBytes 4 b).length = 4 := toLeBytes_length 4 b
  have hc4 : (toLeBytes 4 c).length = 4 := toLeBytes_length 4 c
  have ha' : a < 256 ^ 4 := by
    have h : (256 : Nat) ^ 4 = 2 ^ 32 := by norm_num
    rw [h]; exact ha
  have hb' : b < 256 ^ 4 := by
    have h : (256 : Nat) ^ 4 = 2 ^ 32 := by norm_num
    rw [h]; exact hb
  have hc' : c < 256 ^ 4 := by
    have h : (256 : Nat) ^ 4 = 2 ^ 32 := by norm_num
    rw [h]; exact hc
  have hlen : (magic ++ (toLeBytes 4 a ++ (toLeBytes 4 b ++ toLeBytes 4 c))).length
      = 19 := by simp [hm, ha4, hb4, hc4]
  have hdrop7 : (magic ++ (toLeBytes 4 a ++ (toLeBytes 4 b ++ toLeBytes 4 c))).drop 7
      = toLeBytes 4 a ++ (toLeBytes 4 b ++ toLeBytes 4 c) := List.drop_left' hm
  have hdrop11 : (magic ++ (toLeBytes 4 a ++ (toLeBytes 4 b ++ toLeBytes 4 c))).drop 11
      = toLeBytes 4 b ++ toLeBytes 4 c := by
    rw [← List.append_assoc]
    exact List.drop_left' (by simp [hm, ha4])
  have hdrop15 : (magic ++ (toLeBytes 4 a ++ (toLeBytes 4 b ++ toLeBytes 4 c))).drop 15
      = toLeBytes 4 c := by
    rw [← List.append_assoc, ← List.append_assoc]
    exact List.drop_left' (by simp [hm, ha4, hb4])
  refine ⟨?_, by decide, by decide⟩
  rw [gen_handshake, if_pos hlen, List.take_left' hm, hdrop7, hdrop11, hdrop15,
    List.take_left' ha4, List.take_left' hb4,
    List.take_of_length_le (le_of_eq hc4),
    fromLeBytes_toLeBytes 4 a ha', fromLeBytes_toLeBytes 4 b hb',
    fromLeBytes_toLeBytes 4 c hc']

/-- C4 (witness). -/
theorem c4_handshake_layout_witness :
    gen_handshake (VELOREN_MAGIC_NUMBER ++
        (toLeBytes 4 0 ++ (toLeBytes 4 5 ++ toLeBytes 4 0))) =
      some (Frame.Handshake VELOREN_MAGIC_NUMBER [0, 5, 0]) :=
  (c4_handshake_layout VELOREN_MAGIC_NUMBER (by decide) 0 5 0
    (by norm_num) (by norm_num) (by norm_num)).1

/-- C6: promise flags are bitwise isolated — encoding the union of a flag
set with one more flag gives the bitwise OR of the two encoded bytes, and
enabling a flag leaves the bits of any disjoint flag unchanged. -/
theorem c6_promise_isolation (s : List Promises) (f : Promises)
    (_hf : f ∈ Promises.definedFlags true) :
    (Promises.union (Promises.ofList s) f).to_le_bytes =
      [(Promises.ofList s).bits ||| f.bits] ∧
    (∀ g ∈ Promises.definedFlags true, g.bits &&& f.bits = 0 →
      (Promises.union (Promises.ofList s) f).bits &&& g.bits =
        (Promises.ofList s).bits &&& g.bits) := by
  refine ⟨rfl, fun g _ hdisj => ?_⟩
  have hfg : f.bits &&& g.bits = 0 := land_comm_zero _ _ hdisj
  apply Nat.eq_of_testBit_eq
  intro i
  have hbit : f.bits.testBit i = true → g.bits.testBit i = false := by
    have h0 := congrArg (fun n => n.testBit i) hfg
    simpa [Nat.testBit_land] using h0
  simp only [Promises.union, Nat.testBit_land, Nat.testBit_lor]
  cases hgb : (g.bits).testBit i with
  | false => simp
  | true =>
    cases hfb : (f.bits).testBit i with
    | false => simp [hfb]
    | true => rw [hbit hfb] at hgb; exact absurd hgb (by simp)

/-- C6 (witness). -/
theorem c6_promise_isolation_witness :
    (Promises.union (Promises.ofList [Promises.ORDERED]) Promises.ENCRYPTED).bits
      &&& Promises.ORDERED.bits =
    (Promises.ofList [Promises.ORDERED]).bits &&& Promises.ORDERED.bits :=
  (c6_promise_isolation [Promises.ORDERED] Promises.ENCRYPTED (by decide)).2
    Promises.ORDERED (by decide) (by decide)

/-- C7: `Pid`/`Sid` byte encodings are little-endian and symmetric
inverses: from_le_bytes ∘ to_le_bytes is the identity on ids, and
to_le_bytes ∘ from_le_bytes is the identity on well-formed byte arrays
(16 bytes for Pid, 8 for Sid). -/
theorem c7_id_roundtrip :
    (∀ p : Pid, p.internal < 2 ^ 128 →
      Pid.from_le_bytes (Pid.to_le_bytes p) = p) ∧
    (∀ bs : List Nat, bs.length = 16 → (∀ b ∈ bs, b < 256) →
      Pid.to_le_bytes (Pid.from_le_bytes bs) = bs) ∧
    (∀ s : Sid, s.internal < 2 ^ 64 →
      Sid.from_le_bytes (Sid.to_le_bytes s) = s) ∧
    (∀ bs : List Nat, bs.length = 8 → (∀ b ∈ bs, b < 256) →
      Sid.to_le_bytes (Sid.from_le_bytes bs) = bs) := by
  have h128 : (256 : Nat) ^ 16 = 2 ^ 128 := by norm_num
  have h64 : (256 : Nat) ^ 8 = 2 ^ 64 := by norm_num
  refine ⟨fun p hp => ?_, fun bs hlen hb => ?_, fun s hs => ?_, fun bs hlen hb => ?_⟩
  · cases p with
    | mk v =>
      show Pid.mk (fromLeBytes (toLeBytes 16 v)) = Pid.mk v
      rw [fromLeBytes_toLeBytes 16 v (h128 ▸ hp)]
  · show toLeBytes 16 (fromLeBytes bs) = bs
    rw [← hlen]
    exact toLeBytes_fromLeBytes bs hb
  · cases s with
    | mk v =>
      show Sid.mk (fromLeBytes (toLeBytes 8 v)) = Sid.mk v
      rw [fromLeBytes_toLeBytes 8 v (h64 ▸ hs)]
  · show toLeBytes 8 (fromLeBytes bs) = bs
    rw [← hlen]
    exact toLeBytes_fromLeBytes bs hb

/-- C7 (witness). -/
theorem c7_id_roundtrip_witness :
    Pid.from_le_bytes (Pid.to_le_bytes (Pid.mk 7)) = Pid.mk 7 ∧
    Sid.to_le_bytes (Sid.from_le_bytes (List.replicate 8 255)) =
      List.replicate 8 255 :=
  ⟨c7_id_roundtrip.1 (Pid.mk 7) (by norm_num),
   c7_id_roundtrip.2.2.2 (List.replicate 8 255) (by decide) (by decide)⟩

/-- C8: the `Debug` rendering of a `Pid` always succeeds and produces
exactly 6 characters, character `i` being the alphabet entry selected by
the 6-bit group `(internal >>> (6*i)) &&& 0x3F`; the alphabet index is
always in bounds. -/
theorem c8_pid_debug (p : Pid) :
    pidDebug p = some (pidDebugChars p) ∧
    (pidDebugChars p).length = 6 ∧
    (∀ i : Nat, (p.internal >>> (i * 6)) &&& 0x3F < PID_ALPHABET.length) := by
  have hlen : PID_ALPHABET.length = 64 := by decide
  have hlt : ∀ i : Nat, (p.internal >>> (i * 6)) &&& 0x3F < PID_ALPHABET.length := by
    intro i
    rw [hlen]
    exact Nat.lt_succ_of_le Nat.and_le_right
  refine ⟨?_, by simp [pidDebugChars], hlt⟩
  unfold pidDebug pidDebugChars
  exact seqOpt_map_some _ _ _ fun i _ =>
    get?_eq_getD PID_ALPHABET _ 'A' (hlt i)

/-- C10: decoding OpenStream is total over every 10-byte buffer: the
promise byte is truncated to the defined flag bits, so unknown bits
(5..7, and bit 3 without the compression feature) are silently cleared
and never a decode failure; re-encoding the decoded promises may differ
from the original byte. -/
theorem c10_open_stream_truncate (c : Bool) (buf : List Nat)
    (h : buf.length = 10) :
    gen_open_stream c buf = some (Frame.OpenStream
      (Sid.from_le_bytes (buf.take 8)) (buf.getD 8 0)
      (Promises.from_bits_truncate c (buf.getD 9 0))) ∧
    (∀ k, 5 ≤ k →
      (Promises.from_bits_truncate c (buf.getD 9 0)).bits.testBit k = false) ∧
    (c = false →
      (Promises.from_bits_truncate c (buf.getD 9 0)).bits.testBit 3 = false) ∧
    (Promises.from_bits_truncate c 255).to_le_bytes ≠ [255] := by
  have hmask : Promises.allBits c = if c then 31 else 23 := by
    cases c <;> rfl
  refine ⟨by simp [gen_open_stream, h], fun k hk => ?_, fun hc => ?_, ?_⟩
  · have hm32 : Promises.allBits c < 2 ^ 5 := by
      rw [hmask]; cases c <;> norm_num
    have hmk : (Promises.allBits c).testBit k = false :=
      Nat.testBit_lt_two_pow (lt_of_lt_of_le hm32
        (Nat.pow_le_pow_right (by norm_num) hk))
    simp [Promises.from_bits_truncate, Nat.testBit_land, hmk]
  · have hmk : (Promises.allBits c).testBit 3 = false := by
      rw [hmask, hc]; decide
    simp [Promises.from_bits_truncate, Nat.testBit_land, hmk]
  · cases c <;> decide

/-- C10 (witness). -/
theorem c10_open_stream_truncate_witness :
    gen_open_stream false (List.replicate 10 255) = some (Frame.OpenStream
      (Sid.mk 0xFFFFFFFFFFFFFFFF) 255 (Promises.mk 23)) ∧
    (Promises.from_bits_truncate false
      ((List.replicate 10 255).getD 9 0)).bits.testBit 5 = false ∧
    (Promises.from_bits_truncate false
      ((List.replicate 10 255).getD 9 0)).bits.testBit 3 = false :=
  have h := c10_open_stream_truncate false (List.replicate 10 255) (by decide)
  ⟨h.1.trans (by decide), h.2.1 5 (by norm_num), h.2.2.1 rfl⟩

end Veloren
